import Mathlib

/-!
Verification of the BAM stream-language type checker (`src/bam/src/types.rs`).

The checker's data model and operations are embedded shallowly:
Rust `HashMap`s become association lists (only `insert`/`get` are ever used
by the source, so lookup-respecting association lists are a faithful model),
panics (`panic!`, `unwrap_or_else`) become the `none` case of an `Option`
layer, and the two potentially non-terminating chasing loops of the source
(`unify_types` and `free_unif_vars`, which both follow substitution bindings
without an occurs check) take an explicit fuel argument, with `none` also
standing for fuel exhaustion (divergence of the source).
-/

namespace Bam

/-- The `Type` enum of the source (renamed `Ty`: `Type` is a Lean builtin).
`Num`, `Bool`, `String` are primitives; `Tuple` is order-significant;
`TyVar` is a scheme-bound variable; `UnifVar` an inference variable. -/
inductive Ty where
  | Num : Ty
  | Bool : Ty
  | String : Ty
  | Tuple : List Ty → Ty
  | TyVar : Nat → Ty
  | UnifVar : Nat → Ty

mutual

/-- Decidable equality for `Ty` (the automatic derivation does not support
the nested `List` occurrence). -/
def Ty.decEq : (a b : Ty) → Decidable (a = b)
  | .Num, .Num => .isTrue rfl
  | .Bool, .Bool => .isTrue rfl
  | .String, .String => .isTrue rfl
  | .TyVar a, .TyVar b =>
      match Nat.decEq a b with
      | .isTrue h => .isTrue (h ▸ rfl)
      | .isFalse h => .isFalse (fun hh => h (Ty.TyVar.inj hh))
  | .UnifVar a, .UnifVar b =>
      match Nat.decEq a b with
      | .isTrue h => .isTrue (h ▸ rfl)
      | .isFalse h => .isFalse (fun hh => h (Ty.UnifVar.inj hh))
  | .Tuple xs, .Tuple ys =>
      match Ty.decEqList xs ys with
      | .isTrue h => .isTrue (h ▸ rfl)
      | .isFalse h => .isFalse (fun hh => h (Ty.Tuple.inj hh))
  | .Num, .Bool | .Num, .String | .Num, .Tuple _ | .Num, .TyVar _ | .Num, .UnifVar _
  | .Bool, .Num | .Bool, .String | .Bool, .Tuple _ | .Bool, .TyVar _ | .Bool, .UnifVar _
  | .String, .Num | .String, .Bool | .String, .Tuple _ | .String, .TyVar _
  | .String, .UnifVar _
  | .Tuple _, .Num | .Tuple _, .Bool | .Tuple _, .String | .Tuple _, .TyVar _
  | .Tuple _, .UnifVar _
  | .TyVar _, .Num | .TyVar _, .Bool | .TyVar _, .String | .TyVar _, .Tuple _
  | .TyVar _, .UnifVar _
  | .UnifVar _, .Num | .UnifVar _, .Bool | .UnifVar _, .String | .UnifVar _, .Tuple _
  | .UnifVar _, .TyVar _ => .isFalse nofun

/-- Decidable equality for lists of `Ty`. -/
def Ty.decEqList : (a b : List Ty) → Decidable (a = b)
  | [], [] => .isTrue rfl
  | [], _ :: _ => .isFalse nofun
  | _ :: _, [] => .isFalse nofun
  | x :: xs, y :: ys =>
      match Ty.decEq x y, Ty.decEqList xs ys with
      | .isTrue h1, .isTrue h2 => .isTrue (h1 ▸ h2 ▸ rfl)
      | .isFalse h1, _ => .isFalse (fun hh => h1 (List.cons.inj hh).1)
      | _, .isFalse h2 => .isFalse (fun hh => h2 (List.cons.inj hh).2)

end

instance : DecidableEq Ty := Ty.decEq

/-- The single error kind of the checker: `TypeError::CannotUnify(Type, Type)`. -/
inductive TypeError where
  | CannotUnify : Ty → Ty → TypeError
deriving DecidableEq

/-- `MachineType`: a scheme `∀ TyVar(0..var_count). input → output`. -/
structure MachineType where
  var_count : Nat
  input : Ty
  output : Ty
deriving DecidableEq

/-- Modelled from the spec: the built-in operator identities
(`Builtin` lives in the out-of-scope `syntax.rs`; §4.1 of the spec lists
exactly these eleven operators). -/
inductive Builtin where
  | Add | Mul | Mod | Pow | Sqrt | Gte | Lt | Eq | Dup2 | Dup3 | Print
deriving BEq, DecidableEq

/-- The `BUILTIN_MAP` table, entry for entry from the `lazy_static` block
(lines 8–88 of the source), in the same order.  Note the `Sqrt` entry's
input really is the one-element tuple `Tuple([Num])` in the source, although
the comment next to it says `Num -> Num`. -/
def BUILTIN_MAP : List (Builtin × MachineType) :=
  [ (.Add,  ⟨0, .Tuple [.Num, .Num], .Num⟩),
    (.Mul,  ⟨0, .Tuple [.Num, .Num], .Num⟩),
    (.Mod,  ⟨0, .Tuple [.Num, .Num], .Num⟩),
    (.Pow,  ⟨0, .Tuple [.Num, .Num], .Num⟩),
    (.Sqrt, ⟨0, .Tuple [.Num], .Num⟩),
    (.Gte,  ⟨0, .Tuple [.Num, .Num], .Bool⟩),
    (.Lt,   ⟨0, .Tuple [.Num, .Num], .Bool⟩),
    (.Eq,   ⟨1, .Tuple [.TyVar 0, .TyVar 0], .Bool⟩),
    (.Dup2, ⟨1, .TyVar 0, .Tuple [.TyVar 0, .TyVar 0]⟩),
    (.Dup3, ⟨1, .TyVar 0, .Tuple [.TyVar 0, .TyVar 0, .TyVar 0]⟩),
    (.Print, ⟨1, .TyVar 0, .TyVar 0⟩) ]

/-- `get_builtin_ty`: lookup in `BUILTIN_MAP` (source lines 312–314). -/
def get_builtin_ty (builtin : Builtin) : Option MachineType :=
  List.lookup builtin BUILTIN_MAP

/-- Modelled from the spec: `Value = Null | Num | Str | Bool`; the `Tuple`
case is reserved for a later pass and its payload (not given by the spec,
declared in the out-of-scope `syntax.rs`) is never inspected by the checker,
which treats its appearance as a fatal contract violation. -/
inductive Value where
  | Null : Value
  | Num : Float → Value
  | Str : String → Value
  | Bool : Bool → Value
  | Tuple : Value

/-- Modelled from the spec: `Machine = Var(string) | Builtin(BuiltinId)`;
the `Defined` variant is reserved for a later inlining pass, and its payload
is never inspected by the checker (fatal contract violation), so it is
modelled without payload. -/
inductive Machine where
  | Var : String → Machine
  | Builtin : Builtin → Machine
  | Defined : Machine

/-- Modelled from the spec: stream expressions.  `Unzip` is reserved for a
later pass and never inspected beyond its head, so its payload is dropped. -/
inductive Stream where
  | Var : String → Stream
  | Const : Value → Stream
  | Pipe : Stream → Machine → Stream
  | Zip : List Stream → Stream
  | Cond : Stream → Stream → Stream → Stream
  | Limit : Stream → Int → Stream
  | Unzip : Stream

/-- Modelled from the spec: `Statement = Consume(Stream) | Let(names, Stream)`. -/
inductive Statement where
  | Consume : Stream → Statement
  | Let : List String → Stream → Statement

/-- Modelled from the spec: `Definition { name, body, result }`. -/
structure Definition where
  name : String
  body : List Statement
  result : Stream

/-- Modelled from the spec: `Program { machines }`. -/
structure Program where
  machines : List Definition

/-- `GlobalTypeEnv`: machine name → current scheme.  The Rust `HashMap` is
modelled as an association list whose `insert` prepends (so lookup sees the
latest insert first, matching `HashMap::insert` overwrite semantics). -/
structure GlobalTypeEnv where
  machine_types : List (String × MachineType)

/-- `LocalTypeEnv`: one definition's variable bindings, pending constraints
(in generation order) and fresh-variable counter. -/
structure LocalTypeEnv where
  var_types : List (String × Ty)
  unification_constraints : List (Ty × Ty)
  last_unification_var : Nat

/-- The substitution built by unification: inference-variable index → type. -/
abbrev Subst := List (Nat × Ty)

/-- `new_unif_var` (source lines 316–320): returns `UnifVar` of the current
counter value and increments the counter. -/
def new_unif_var (local_env : LocalTypeEnv) : Ty × LocalTypeEnv :=
  (.UnifVar local_env.last_unification_var,
    { local_env with last_unification_var := local_env.last_unification_var + 1 })

mutual

/-- `replace_ty_var` (source lines 341–357): substitute `to_replace` for
`TyVar var`, recursing into tuples. -/
def replace_ty_var (ty : Ty) (var : Nat) (to_replace : Ty) : Ty :=
  match ty with
  | .Num => .Num
  | .Bool => .Bool
  | .String => .String
  | .UnifVar a => .UnifVar a
  | .TyVar other => if other = var then to_replace else .TyVar other
  | .Tuple tys => .Tuple (replace_ty_var_list tys var to_replace)

/-- The `tys.into_iter().map(...)` loop of `replace_ty_var`'s tuple case. -/
def replace_ty_var_list (tys : List Ty) (var : Nat) (to_replace : Ty) : List Ty :=
  match tys with
  | [] => []
  | t :: ts => replace_ty_var t var to_replace :: replace_ty_var_list ts var to_replace

end

/-- `replace_unif_var` (source lines 359–375): substitute `to_replace` for
`UnifVar var`.  Faithful to the source, the `Tuple` branch maps
`replace_ty_var` (not `replace_unif_var`) over the elements (line 371), so
inference variables nested inside tuples are left untouched. -/
def replace_unif_var (ty : Ty) (var : Nat) (to_replace : Ty) : Ty :=
  match ty with
  | .Num => .Num
  | .Bool => .Bool
  | .String => .String
  | .TyVar a => .TyVar a
  | .UnifVar other => if other = var then to_replace else .UnifVar other
  | .Tuple tys => .Tuple (replace_ty_var_list tys var to_replace)

mutual

/-- `unify_types` (source lines 387–416).  The inference-variable case
chases an existing binding by a recursive call on the binding, which need
not terminate (no occurs check), hence the fuel argument; `none` models
divergence.  Arm order and the error payloads follow the source exactly. -/
def unify_types (fuel : Nat) (subst : Subst) (ty1 ty2 : Ty) :
    Option (Except TypeError Subst) :=
  match fuel with
  | 0 => none
  | fuel + 1 =>
    match ty1, ty2 with
    | .Num, .Num | .Bool, .Bool | .String, .String => some (.ok subst)
    | .TyVar a, .TyVar b =>
        if a = b then some (.ok subst)
        else some (.error (.CannotUnify (.TyVar a) (.TyVar b)))
    | .Tuple tys1, .Tuple tys2 =>
        if tys1.length = tys2.length then
          unify_types_list fuel subst (tys1.zip tys2)
        else some (.error (.CannotUnify (.Tuple tys1) (.Tuple tys2)))
    | .UnifVar a, t2 =>
        match List.lookup a subst with
        | some ty => unify_types fuel subst ty t2
        | none => some (.ok ((a, t2) :: subst))
    | t1, .UnifVar b => unify_types fuel subst (.UnifVar b) t1
    | t1, t2 => some (.error (.CannotUnify t1 t2))

/-- The element-wise loop of `unify_types`' tuple case
(`tys1.iter().zip(tys2.iter())`), threading the substitution and stopping
at the first error. -/
def unify_types_list (fuel : Nat) (subst : Subst) (pairs : List (Ty × Ty)) :
    Option (Except TypeError Subst) :=
  match fuel with
  | 0 => none
  | fuel + 1 =>
    match pairs with
    | [] => some (.ok subst)
    | (t1, t2) :: rest =>
      match unify_types fuel subst t1 t2 with
      | none => none
      | some (.error e) => some (.error e)
      | some (.ok subst') => unify_types_list fuel subst' rest

end

/-- The constraint loop of `unify` (source lines 377–385): process the
constraints in insertion order, threading one substitution, failing on the
first irreconcilable pair. -/
def unify_constraints (fuel : Nat) (subst : Subst) :
    List (Ty × Ty) → Option (Except TypeError Subst)
  | [] => some (.ok subst)
  | (ty1, ty2) :: rest =>
    match unify_types fuel subst ty1 ty2 with
    | none => none
    | some (.error e) => some (.error e)
    | some (.ok subst') => unify_constraints fuel subst' rest

/-- `unify` (source lines 377–385): solve a local environment's constraints
starting from the empty substitution. -/
def unify (fuel : Nat) (local_env : LocalTypeEnv) : Option (Except TypeError Subst) :=
  unify_constraints fuel [] local_env.unification_constraints

mutual

/-- `free_unif_vars` (source lines 418–431): append to `result` the terminal
index of every inference variable reachable from `ty`, following bindings
through `subst` (which can loop on a cyclic substitution — fuel). -/
def free_unif_vars (fuel : Nat) (subst : Subst) (result : List Nat) (ty : Ty) :
    Option (List Nat) :=
  match fuel with
  | 0 => none
  | fuel + 1 =>
    match ty with
    | .UnifVar a =>
      match List.lookup a subst with
      | none => some (result ++ [a])
      | some ty' => free_unif_vars fuel subst result ty'
    | .Bool | .Num | .String | .TyVar _ => some result
    | .Tuple tys => free_unif_vars_list fuel subst result tys

/-- The `for ty in tys` loop of `free_unif_vars`' tuple case. -/
def free_unif_vars_list (fuel : Nat) (subst : Subst) (result : List Nat) (tys : List Ty) :
    Option (List Nat) :=
  match fuel with
  | 0 => none
  | fuel + 1 =>
    match tys with
    | [] => some result
    | t :: ts =>
      match free_unif_vars fuel subst result t with
      | none => none
      | some result' => free_unif_vars_list fuel subst result' ts

end

/-- `generalize` (source lines 433–456): collect the free inference
variables of input then output, then `rfold` over the enumerated list,
replacing `UnifVar var` by `TyVar i` in the *original* (unsubstituted)
input and output; `var_count` is the length of the collected list
(duplicates included — the source does not deduplicate). -/
def generalize (fuel : Nat) (subst : Subst) (machine_ty : MachineType) :
    Option MachineType :=
  match free_unif_vars fuel subst [] machine_ty.input with
  | none => none
  | some free_vars0 =>
    match free_unif_vars fuel subst free_vars0 machine_ty.output with
    | none => none
    | some free_vars =>
      let input := free_vars.enum.foldr
        (fun p ty => replace_unif_var ty p.2 (.TyVar p.1)) machine_ty.input
      let output := free_vars.enum.foldr
        (fun p ty => replace_unif_var ty p.2 (.TyVar p.1)) machine_ty.output
      some ⟨free_vars.length, input, output⟩

/-- The `(0..machine_ty.var_count).map(|i| (i, new_unif_var(local_env)))`
loop of `instantiate` (source lines 323–325): allocate one fresh inference
variable per quantifier slot, in ascending slot order. -/
def alloc_unif_vars (local_env : LocalTypeEnv) (i : Nat) (count : Nat) :
    List (Nat × Ty) × LocalTypeEnv :=
  match count with
  | 0 => ([], local_env)
  | count + 1 =>
    let (var, local_env1) := new_unif_var local_env
    let (rest, local_env2) := alloc_unif_vars local_env1 (i + 1) count
    ((i, var) :: rest, local_env2)

/-- `instantiate` (source lines 322–339): open a scheme by replacing each
bound variable with a fresh inference variable (rfold, right to left). -/
def instantiate (local_env : LocalTypeEnv) (machine_ty : MachineType) :
    MachineType × LocalTypeEnv :=
  let (unif_vars, local_env) := alloc_unif_vars local_env 0 machine_ty.var_count
  let input := unif_vars.foldr (fun p ty => replace_ty_var ty p.1 p.2) machine_ty.input
  let output := unif_vars.foldr (fun p ty => replace_ty_var ty p.1 p.2) machine_ty.output
  (⟨0, input, output⟩, local_env)

mutual

/-- `infer_stream` (source lines 230–310).  `none` models the source's
panics (unbound variable, unbound machine, reserved post-pass variants). -/
def infer_stream (global_env : GlobalTypeEnv) (local_env : LocalTypeEnv) :
    Stream → Option (Ty × LocalTypeEnv)
  | .Var name =>
    match List.lookup name local_env.var_types with
    | some ty => some (ty, local_env)
    | none => none
  | .Const .Null => some (new_unif_var local_env)
  | .Const (.Num _) => some (.Num, local_env)
  | .Const (.Str _) => some (.String, local_env)
  | .Const (.Bool _) => some (.Bool, local_env)
  | .Const .Tuple => none
  | .Pipe stream machine =>
    match infer_stream global_env local_env stream with
    | none => none
    | some (stream_ty, local_env) =>
      let machine_ty_opt : Option MachineType :=
        match machine with
        | .Var machine_name => List.lookup machine_name global_env.machine_types
        | .Builtin builtin => get_builtin_ty builtin
        | .Defined => none
      match machine_ty_opt with
      | none => none
      | some machine_ty =>
        let (machine_ty, local_env) := instantiate local_env machine_ty
        some (machine_ty.output,
          { local_env with unification_constraints :=
              local_env.unification_constraints ++ [(machine_ty.input, stream_ty)] })
  | .Zip streams =>
    match infer_streams global_env local_env streams with
    | none => none
    | some (stream_tys, local_env) => some (.Tuple stream_tys, local_env)
  | .Cond condition then_s else_s =>
    match infer_stream global_env local_env condition with
    | none => none
    | some (condition_ty, local_env) =>
      let local_env := { local_env with unification_constraints :=
          local_env.unification_constraints ++ [(condition_ty, .Bool)] }
      match infer_stream global_env local_env then_s with
      | none => none
      | some (then_ty, local_env) =>
        match infer_stream global_env local_env else_s with
        | none => none
        | some (else_ty, local_env) =>
          some (then_ty,
            { local_env with unification_constraints :=
                local_env.unification_constraints ++ [(then_ty, else_ty)] })
  | .Limit stream _ => infer_stream global_env local_env stream
  | .Unzip => none

/-- The `streams.iter().map(...)` loop of `infer_stream`'s `Zip` case,
threading the local environment left to right. -/
def infer_streams (global_env : GlobalTypeEnv) (local_env : LocalTypeEnv) :
    List Stream → Option (List Ty × LocalTypeEnv)
  | [] => some ([], local_env)
  | s :: ss =>
    match infer_stream global_env local_env s with
    | none => none
    | some (ty, local_env) =>
      match infer_streams global_env local_env ss with
      | none => none
      | some (tys, local_env) => some (ty :: tys, local_env)

end

/-- The `vars.iter().map(|x| (x, new_unif_var(local_env)))` loop of
`check_statement`'s destructuring branch (source line 214): one fresh
inference variable per name, in name order. -/
def let_fresh_vars (local_env : LocalTypeEnv) :
    List String → List (String × Ty) × LocalTypeEnv
  | [] => ([], local_env)
  | x :: xs =>
    let (var, local_env1) := new_unif_var local_env
    let (rest, local_env2) := let_fresh_vars local_env1 xs
    ((x, var) :: rest, local_env2)

/-- The `for (x, ty) in tuple_tys` insertion loop of `check_statement`
(source lines 216–218); later inserts shadow earlier ones on lookup, as
with `HashMap::insert`. -/
def insert_var_types (var_types : List (String × Ty)) :
    List (String × Ty) → List (String × Ty)
  | [] => var_types
  | (x, ty) :: rest => insert_var_types ((x, ty) :: var_types) rest

/-- `check_statement` (source lines 194–228). -/
def check_statement (global_env : GlobalTypeEnv) (local_env : LocalTypeEnv) :
    Statement → Option LocalTypeEnv
  | .Consume stream =>
    match infer_stream global_env local_env stream with
    | none => none
    | some (_, local_env) => some local_env
  | .Let vars stream =>
    match infer_stream global_env local_env stream with
    | none => none
    | some (stream_ty, local_env) =>
      match vars with
      | [x] => some { local_env with var_types := (x, stream_ty) :: local_env.var_types }
      | vars =>
        let (tuple_tys, local_env) := let_fresh_vars local_env vars
        let local_env := { local_env with
          var_types := insert_var_types local_env.var_types tuple_tys }
        let variable_tuple_ty := Ty.Tuple (tuple_tys.map (fun p => p.2))
        some { local_env with unification_constraints :=
            local_env.unification_constraints ++ [(variable_tuple_ty, stream_ty)] }

/-- The `for statement in &machine.body` loop of `check_machine_def`
(source lines 175–177). -/
def check_statements (global_env : GlobalTypeEnv) (local_env : LocalTypeEnv) :
    List Statement → Option LocalTypeEnv
  | [] => some local_env
  | st :: rest =>
    match check_statement global_env local_env st with
    | none => none
    | some local_env => check_statements global_env local_env rest

/-- `check_machine_def` (source lines 153–192): fresh local environment;
placeholder scheme `{0, UnifVar 0, UnifVar 1}` installed under the
definition's name; body checked; `out0 == result_type` constraint added;
constraints solved; the placeholder generalized and committed. -/
def check_machine_def (fuel : Nat) (global_env : GlobalTypeEnv) (machine : Definition) :
    Option (Except TypeError GlobalTypeEnv) :=
  let local_env : LocalTypeEnv := ⟨[], [], 0⟩
  let (machine_type_input, local_env) := new_unif_var local_env
  let (machine_type_output, local_env) := new_unif_var local_env
  let machine_type : MachineType := ⟨0, machine_type_input, machine_type_output⟩
  let global_env : GlobalTypeEnv :=
    ⟨(machine.name, machine_type) :: global_env.machine_types⟩
  match check_statements global_env local_env machine.body with
  | none => none
  | some local_env =>
    match infer_stream global_env local_env machine.result with
    | none => none
    | some (real_output_type, local_env) =>
      let local_env := { local_env with unification_constraints :=
          local_env.unification_constraints ++ [(machine_type_output, real_output_type)] }
      match unify fuel local_env with
      | none => none
      | some (.error e) => some (.error e)
      | some (.ok subst) =>
        match generalize fuel subst machine_type with
        | none => none
        | some generalized_machine_type =>
          some (.ok ⟨(machine.name, generalized_machine_type) :: global_env.machine_types⟩)

/-- The `for machine in &program.machines` loop of `check` (source lines
147–149), threading the growing global environment and stopping at the
first error; returns the final environment on success (the source returns
`Ok(())` and drops the environment — see `check`). -/
def check_machines (fuel : Nat) (global_env : GlobalTypeEnv) :
    List Definition → Option (Except TypeError GlobalTypeEnv)
  | [] => some (.ok global_env)
  | machine :: rest =>
    match check_machine_def fuel global_env machine with
    | none => none
    | some (.error e) => some (.error e)
    | some (.ok global_env') => check_machines fuel global_env' rest

/-- `check` (source lines 143–151): start from an empty global environment,
check every definition in source order, discard the final environment. -/
def check (fuel : Nat) (program : Program) : Option (Except TypeError Unit) :=
  (check_machines fuel ⟨[]⟩ program.machines).map (fun r => r.map (fun _ => ()))

/-! Spec-side definitions, used to compare the code with the
specification's words, and concrete programs used by the theorems. -/

/-- Modelled from the spec: the built-in signature table exactly as §4.1
lists it — in particular `Sqrt : Num→Num` with a bare `Num` input. -/
def BUILTIN_MAP_spec : List (Builtin × MachineType) :=
  [ (.Add,  ⟨0, .Tuple [.Num, .Num], .Num⟩),
    (.Mul,  ⟨0, .Tuple [.Num, .Num], .Num⟩),
    (.Mod,  ⟨0, .Tuple [.Num, .Num], .Num⟩),
    (.Pow,  ⟨0, .Tuple [.Num, .Num], .Num⟩),
    (.Sqrt, ⟨0, .Num, .Num⟩),
    (.Gte,  ⟨0, .Tuple [.Num, .Num], .Bool⟩),
    (.Lt,   ⟨0, .Tuple [.Num, .Num], .Bool⟩),
    (.Eq,   ⟨1, .Tuple [.TyVar 0, .TyVar 0], .Bool⟩),
    (.Dup2, ⟨1, .TyVar 0, .Tuple [.TyVar 0, .TyVar 0]⟩),
    (.Dup3, ⟨1, .TyVar 0, .Tuple [.TyVar 0, .TyVar 0, .TyVar 0]⟩),
    (.Print, ⟨1, .TyVar 0, .TyVar 0⟩) ]

/-- Whether a type is an inference variable (head test used to state which
`unify_types` failures report their operands verbatim). -/
def is_unif_var : Ty → Bool
  | .UnifVar _ => true
  | _ => false

/-- Whether two types' heads are reconciled structurally by `unify_types`:
equal primitives, equal bound-variable indices, or tuples of equal arity. -/
def unif_head_match : Ty → Ty → Bool
  | .Num, .Num => true
  | .Bool, .Bool => true
  | .String, .String => true
  | .TyVar a, .TyVar b => a == b
  | .Tuple tys1, .Tuple tys2 => tys1.length == tys2.length
  | _, _ => false

mutual

/-- Whether a type syntactically contains an inference variable. -/
def has_unif_var : Ty → Bool
  | .UnifVar _ => true
  | .Tuple tys => has_unif_var_list tys
  | _ => false

/-- Whether any type in a list contains an inference variable. -/
def has_unif_var_list : List Ty → Bool
  | [] => false
  | t :: ts => has_unif_var t || has_unif_var_list ts

end

/-- Spec-side reading of "every definition checks successfully": each
definition in turn checks without error, threading the environment. -/
def all_check (fuel : Nat) : GlobalTypeEnv → List Definition → Prop
  | _, [] => True
  | global_env, machine :: rest =>
    ∃ global_env', check_machine_def fuel global_env machine = some (.ok global_env')
      ∧ all_check fuel global_env' rest

/-- Two global environments are equivalent when every name lookup agrees —
the observational equality corresponding to two `HashMap`s with the same
contents but different internal layout. -/
def EnvEquiv (g1 g2 : GlobalTypeEnv) : Prop :=
  ∀ name, List.lookup name g1.machine_types = List.lookup name g2.machine_types

/-- Relates two `check_machines` results: same divergence/panic, same
error, or equivalent final environments. -/
def check_result_equiv :
    Option (Except TypeError GlobalTypeEnv) → Option (Except TypeError GlobalTypeEnv) → Prop
  | none, none => True
  | some (.error e1), some (.error e2) => e1 = e2
  | some (.ok g1), some (.ok g2) => EnvEquiv g1 g2
  | _, _ => False

/-- A machine whose body is empty and whose result is a numeric constant. -/
def machine_returning_num : Definition := ⟨"m", [], .Const (.Num 5)⟩

/-- A machine whose result pipes a numeric constant through the previously
defined machine `m`. -/
def machine_using_prior : Definition := ⟨"n", [], .Pipe (.Const (.Num 5)) (.Var "m")⟩

/-- The two machines above as one program. -/
def prog_two_machines : Program := ⟨[machine_returning_num, machine_using_prior]⟩

/-- A machine that pipes a `Num` and then a `String` into itself — the two
self-call sites demand two different input shapes. -/
def machine_selfcall_two_shapes : Definition :=
  ⟨"f", [.Consume (.Pipe (.Const (.Num 1)) (.Var "f")),
         .Consume (.Pipe (.Const (.Str "s")) (.Var "f"))], .Const (.Num 1)⟩

/-- A machine that applies the binary built-in `Gte` to a bare `Num`
stream — ill-typed, rejected at unification. -/
def machine_bad_gte : Definition := ⟨"b", [], .Pipe (.Const (.Num 1)) (.Builtin .Gte)⟩

/-! Supporting lemmas. -/

theorem alloc_unif_vars_eq : ∀ (count : Nat) (lenv : LocalTypeEnv) (i : Nat),
    alloc_unif_vars lenv i count
      = ((List.range count).map
           (fun j => (i + j, Ty.UnifVar (lenv.last_unification_var + j))),
         { lenv with last_unification_var := lenv.last_unification_var + count })
  | 0, lenv, i => rfl
  | count + 1, lenv, i => by
      have ih := alloc_unif_vars_eq count
        { lenv with last_unification_var := lenv.last_unification_var + 1 } (i + 1)
      simp only [alloc_unif_vars, new_unif_var, ih]
      rw [List.range_succ_eq_map]
      simp only [List.map_cons, List.map_map, Prod.mk.injEq]
      refine ⟨?_, ?_⟩
      · congr 1
        apply List.map_congr_left
        intro j hj
        simp only [Function.comp_apply]
        have e1 : i + 1 + j = i + (j + 1) := by omega
        have e2 : lenv.last_unification_var + 1 + j
            = lenv.last_unification_var + (j + 1) := by omega
        rw [e1, e2]
      · simp only [LocalTypeEnv.mk.injEq, true_and]
        omega

theorem let_fresh_vars_eq : ∀ (vars : List String) (lenv : LocalTypeEnv),
    let_fresh_vars lenv vars
      = (vars.zip ((List.range vars.length).map
           (fun j => Ty.UnifVar (lenv.last_unification_var + j))),
         { lenv with last_unification_var := lenv.last_unification_var + vars.length })
  | [], lenv => rfl
  | x :: xs, lenv => by
      have ih := let_fresh_vars_eq xs
        { lenv with last_unification_var := lenv.last_unification_var + 1 }
      simp only [let_fresh_vars, new_unif_var, ih]
      rw [List.length_cons, List.range_succ_eq_map]
      simp only [List.map_cons, List.map_map, List.zip_cons_cons, Prod.mk.injEq]
      refine ⟨?_, ?_⟩
      · congr 1
        congr 1
        apply List.map_congr_left
        intro j hj
        simp only [Function.comp_apply]
        have e2 : lenv.last_unification_var + 1 + j
            = lenv.last_unification_var + (j + 1) := by omega
        rw [e2]
      · simp only [LocalTypeEnv.mk.injEq, true_and]
        omega

theorem insert_var_types_eq :
    ∀ (l base : List (String × Ty)), insert_var_types base l = l.reverse ++ base
  | [], base => rfl
  | (x, ty) :: rest, base => by
      simp only [insert_var_types, insert_var_types_eq rest, List.reverse_cons,
        List.append_assoc, List.singleton_append]

theorem lookup_append_left {α β : _} [BEq α] (k : α) (v : β) :
    ∀ (xs ys : List (α × β)), List.lookup k xs = some v →
      List.lookup k (xs ++ ys) = some v
  | [], _, h => by simp [List.lookup] at h
  | (a, b) :: xs, ys, h => by
      simp only [List.lookup, List.cons_append] at h ⊢
      cases hk : k == a with
      | true => simpa [hk] using h
      | false =>
        simp only [hk] at h ⊢
        exact lookup_append_left k v xs ys h

theorem lookup_of_nodup_mem {α β : _} [BEq α] [LawfulBEq α] (k : α) (v : β) :
    ∀ (l : List (α × β)), (l.map Prod.fst).Nodup → (k, v) ∈ l →
      List.lookup k l = some v
  | [], _, hm => absurd hm (List.not_mem_nil _)
  | (a, b) :: l, hnd, hm => by
      simp only [List.map_cons, List.nodup_cons] at hnd
      rcases List.mem_cons.mp hm with h | h
      · obtain ⟨rfl, rfl⟩ := Prod.mk.injEq .. ▸ h
        simp [List.lookup]
      · have hne : k ≠ a := by
          rintro rfl
          exact hnd.1 (List.mem_map.mpr ⟨(k, v), h, rfl⟩)
        simp only [List.lookup, beq_false_of_ne hne]
        exact lookup_of_nodup_mem k v l hnd.2 h

theorem free_unif_vars_cyclic (subst : Subst) (a : Nat)
    (h : List.lookup a subst = some (.UnifVar a)) :
    ∀ (fuel : Nat) (acc : List Nat), free_unif_vars fuel subst acc (.UnifVar a) = none
  | 0, _ => rfl
  | fuel + 1, acc => by
      have step : free_unif_vars (fuel + 1) subst acc (.UnifVar a)
          = match List.lookup a subst with
            | none => some (acc ++ [a])
            | some ty' => free_unif_vars fuel subst acc ty' := rfl
      rw [step, h]
      exact free_unif_vars_cyclic subst a h fuel acc

theorem generalize_eq_none (fuel : Nat) (subst : Subst) (machine_ty : MachineType)
    (fv0 : List Nat)
    (h1 : free_unif_vars fuel subst [] machine_ty.input = some fv0)
    (h2 : free_unif_vars fuel subst fv0 machine_ty.output = none) :
    generalize fuel subst machine_ty = none := by
  simp only [generalize, h1, h2]

theorem check_machines_cons_ok (fuel : Nat) (genv genv' : GlobalTypeEnv)
    (machine : Definition) (rest : List Definition)
    (h : check_machine_def fuel genv machine = some (.ok genv')) :
    check_machines fuel genv (machine :: rest) = check_machines fuel genv' rest := by
  simp only [check_machines, h]

theorem check_machines_cons_none (fuel : Nat) (genv : GlobalTypeEnv)
    (machine : Definition) (rest : List Definition)
    (h : check_machine_def fuel genv machine = none) :
    check_machines fuel genv (machine :: rest) = none := by
  simp only [check_machines, h]

/-! Claim theorems. -/

/-- C1: for an identity-shaped definition — placeholder scheme
`{0, UnifVar 0, UnifVar 1}` with the solved substitution binding the output
variable to the input variable — `generalize` is claimed to commit a scheme
using the same bound variable in input and output position, so that
unifying the instantiated input with a concrete type forces the same output
type.  The code instead commits `{2, TyVar 1, UnifVar 1}`: two different
variables (the output is not even a bound variable but a leaked inference
variable), and unifying the instantiated input with `Num` leaves the output
completely unconstrained. -/
theorem generalize_identity_breaks_sharing :
    generalize 10 [(1, Ty.UnifVar 0)] ⟨0, .UnifVar 0, .UnifVar 1⟩
      = some ⟨2, .TyVar 1, .UnifVar 1⟩
    ∧ instantiate ⟨[], [], 2⟩ ⟨2, .TyVar 1, .UnifVar 1⟩
      = (⟨0, .UnifVar 3, .UnifVar 1⟩, ⟨[], [], 4⟩)
    ∧ unify_types 10 [] (.UnifVar 3) .Num = some (.ok [(3, .Num)])
    ∧ List.lookup 1 [(3, Ty.Num)] = none
    ∧ Ty.UnifVar 1 ≠ Ty.Num :=
  ⟨rfl, rfl, rfl, rfl, by decide⟩

/-- C2: `generalize` is claimed to leave no inference variable in the
committed scheme, so that one pass's indices never appear in a later
definition's pass.  In fact, for a machine whose body result is a plain
`Num` constant, the committed scheme is `{1, TyVar 0, UnifVar 1}` — the
output is a leaked inference variable (`generalize` replaces only the
terminal *unbound* indices found by chasing, inside the never-substituted
placeholder types, and its tuple branch replaces nothing at all).
Consequently, when a second definition pipes through the first, the leaked
`UnifVar 1` collides with the second pass's own output variable `UnifVar 1`,
the solver binds `1 ↦ UnifVar 1`, and the chasing loop of `free_unif_vars`
never terminates: `check` diverges (models the Rust checker hanging) for
every fuel. -/
theorem committed_scheme_leaks_inference_var :
    check_machine_def 10 ⟨[]⟩ machine_returning_num
      = some (.ok ⟨[("m", ⟨1, .TyVar 0, .UnifVar 1⟩), ("m", ⟨0, .UnifVar 0, .UnifVar 1⟩)]⟩)
    ∧ has_unif_var (⟨1, Ty.TyVar 0, Ty.UnifVar 1⟩ : MachineType).output = true
    ∧ (∀ fuel : Nat, check fuel prog_two_machines = none) := by
  refine ⟨rfl, rfl, ?_⟩
  intro fuel
  match fuel with
  | 0 => rfl
  | 1 => rfl
  | (n + 2) =>
    have hM : check_machine_def (n + 2) ⟨[]⟩ machine_returning_num
        = some (.ok ⟨[("m", ⟨1, .TyVar 0, .UnifVar 1⟩),
                      ("m", ⟨0, .UnifVar 0, .UnifVar 1⟩)]⟩) := rfl
    have hcyc : free_unif_vars (n + 2) [(1, Ty.UnifVar 1), (2, Ty.Num)] [0] (.UnifVar 1)
        = none := free_unif_vars_cyclic [(1, Ty.UnifVar 1), (2, Ty.Num)] 1 rfl (n + 2) [0]
    have hgen : generalize (n + 2) [(1, Ty.UnifVar 1), (2, Ty.Num)]
        ⟨0, .UnifVar 0, .UnifVar 1⟩ = none :=
      generalize_eq_none _ _ _ [0] rfl hcyc
    have hstep : check_machine_def (n + 2)
        ⟨[("m", ⟨1, .TyVar 0, .UnifVar 1⟩), ("m", ⟨0, .UnifVar 0, .UnifVar 1⟩)]⟩
        machine_using_prior
        = match generalize (n + 2) [(1, Ty.UnifVar 1), (2, Ty.Num)]
            ⟨0, .UnifVar 0, .UnifVar 1⟩ with
          | none => none
          | some g => some (.ok ⟨("n", g) :: ("n", ⟨0, .UnifVar 0, .UnifVar 1⟩)
              :: [("m", ⟨1, .TyVar 0, .UnifVar 1⟩), ("m", ⟨0, .UnifVar 0, .UnifVar 1⟩)]⟩) := rfl
    rw [hgen] at hstep
    show check (n + 2) prog_two_machines = none
    simp only [check, prog_two_machines]
    rw [check_machines_cons_ok _ _ _ _ _ hM, check_machines_cons_none _ _ _ _ hstep]
    rfl

/-- C3: the built-in table is claimed to match the spec's list exactly,
with `Sqrt : Num → Num`.  Every entry except `Sqrt` does match; the code's
`Sqrt` entry has input `Tuple([Num])` (a one-element tuple), not `Num`,
although the comment beside it in the source says `Num -> Num`. -/
theorem builtin_table_matches_spec_except_sqrt :
    (∀ b : Builtin, b ≠ .Sqrt → get_builtin_ty b = List.lookup b BUILTIN_MAP_spec)
    ∧ get_builtin_ty .Sqrt = some ⟨0, .Tuple [.Num], .Num⟩
    ∧ List.lookup Builtin.Sqrt BUILTIN_MAP_spec = some ⟨0, .Num, .Num⟩
    ∧ (⟨0, Ty.Tuple [Ty.Num], Ty.Num⟩ : MachineType) ≠ ⟨0, .Num, .Num⟩ := by
  refine ⟨fun b hb => ?_, rfl, rfl, by decide⟩
  cases b
  case Sqrt => exact absurd rfl hb
  all_goals rfl

theorem builtin_table_matches_spec_except_sqrt_witness :
    get_builtin_ty .Eq = List.lookup Builtin.Eq BUILTIN_MAP_spec :=
  builtin_table_matches_spec_except_sqrt.1 .Eq (by decide)

/-- C4 counterexample: with the substitution already binding inference
variable 0 to `Num`, the failing constraint `(UnifVar 0, Bool)` is reported
as `CannotUnify(Num, Bool)` — the chased binding, not the original
pre-substitution operand `UnifVar 0`. -/
theorem cannot_unify_reports_chased_binding :
    unify 10 ⟨[], [(.UnifVar 0, .Num), (.UnifVar 0, .Bool)], 1⟩
      = some (.error (.CannotUnify .Num .Bool))
    ∧ TypeError.CannotUnify Ty.Num Ty.Bool ≠ TypeError.CannotUnify (Ty.UnifVar 0) Ty.Bool :=
  ⟨rfl, by decide⟩

/-- C4 amended: whenever `unify_types` fails on a pair neither side of
which is an inference variable, the error carries exactly the two operand
types of the failing comparison; only when an already-bound inference
variable is chased (or the operands are swapped to put the variable on the
left) can the reported types differ from the originals. -/
theorem cannot_unify_carries_operands_when_no_chase :
    ∀ (fuel : Nat) (subst : Subst) (t1 t2 : Ty),
      is_unif_var t1 = false → is_unif_var t2 = false →
      unif_head_match t1 t2 = false →
      unify_types (fuel + 1) subst t1 t2 = some (.error (.CannotUnify t1 t2)) := by
  intro fuel subst t1 t2 h1 h2 h3
  cases t1 <;> cases t2 <;>
    simp_all [is_unif_var, unif_head_match, unify_types]

theorem cannot_unify_carries_operands_when_no_chase_witness :
    unify_types 1 [] (.Tuple [.Num]) .Num
      = some (.error (.CannotUnify (.Tuple [.Num]) .Num)) :=
  cannot_unify_carries_operands_when_no_chase 0 [] (.Tuple [.Num]) .Num rfl rfl rfl

/-- C5: a definition's own name is bound, while its body is checked, to the
monomorphic placeholder `{0, UnifVar 0, UnifVar 1}`; instantiating any
scheme with `var_count = 0` allocates nothing and returns the scheme's own
input/output, so every self-call shares the single pair `UnifVar 0/1`
(demonstrated: a self-call pipe constrains `UnifVar 0` and types as
`UnifVar 1` without consuming fresh variables, and a definition whose two
self-calls demand `Num` and `String` is rejected with `CannotUnify`). -/
theorem selfcall_placeholder_monomorphic :
    (∀ (local_env : LocalTypeEnv) (mt : MachineType), mt.var_count = 0 →
        instantiate local_env mt = (mt, local_env))
    ∧ infer_stream ⟨[("f", ⟨0, .UnifVar 0, .UnifVar 1⟩)]⟩ ⟨[], [], 2⟩
        (.Pipe (.Const (.Num 1)) (.Var "f"))
        = some (.UnifVar 1, ⟨[], [(.UnifVar 0, .Num)], 2⟩)
    ∧ check_machine_def 10 ⟨[]⟩ machine_selfcall_two_shapes
        = some (.error (.CannotUnify .Num .String)) := by
  refine ⟨?_, rfl, rfl⟩
  rintro local_env ⟨vc, inp, outp⟩ h
  simp only at h
  subst h
  rfl

theorem selfcall_placeholder_monomorphic_witness :
    instantiate ⟨[], [], 7⟩ ⟨0, .Num, .Bool⟩ = (⟨0, .Num, .Bool⟩, ⟨[], [], 7⟩) :=
  selfcall_placeholder_monomorphic.1 ⟨[], [], 7⟩ ⟨0, .Num, .Bool⟩ rfl

/-- C6: each `instantiate` call consumes exactly `var_count` fresh
inference-variable indices from the counter (so no later call can reuse
them), and two pipes through `Dup2` in one body instantiate independently:
the first (on a `Num` stream) uses `UnifVar 2` and the second (on a
`String` stream) uses `UnifVar 3`; solving the generated constraints binds
them to `Num` and `String` respectively, making the outputs
`Tuple([Num, Num])` and `Tuple([String, String])` with no shared
constraint between the two call sites. -/
theorem instantiate_fresh_per_call :
    (∀ (local_env : LocalTypeEnv) (mt : MachineType),
        (instantiate local_env mt).2
          = { local_env with last_unification_var :=
                local_env.last_unification_var + mt.var_count })
    ∧ infer_stream ⟨[]⟩ ⟨[], [], 2⟩ (.Pipe (.Const (.Num 1)) (.Builtin .Dup2))
        = some (.Tuple [.UnifVar 2, .UnifVar 2], ⟨[], [(.UnifVar 2, .Num)], 3⟩)
    ∧ infer_stream ⟨[]⟩ ⟨[], [(.UnifVar 2, .Num)], 3⟩
        (.Pipe (.Const (.Str "x")) (.Builtin .Dup2))
        = some (.Tuple [.UnifVar 3, .UnifVar 3],
            ⟨[], [(.UnifVar 2, .Num), (.UnifVar 3, .String)], 4⟩)
    ∧ unify 10 ⟨[], [(.UnifVar 2, .Num), (.UnifVar 3, .String)], 4⟩
        = some (.ok [(3, .String), (2, .Num)])
    ∧ unify_types 10 [(3, .String), (2, .Num)]
        (.Tuple [.UnifVar 2, .UnifVar 2]) (.Tuple [.Num, .Num])
        = some (.ok [(3, .String), (2, .Num)])
    ∧ unify_types 10 [(3, .String), (2, .Num)]
        (.Tuple [.UnifVar 3, .UnifVar 3]) (.Tuple [.String, .String])
        = some (.ok [(3, .String), (2, .Num)]) := by
  refine ⟨?_, rfl, rfl, rfl, rfl, rfl⟩
  intro local_env mt
  simp only [instantiate, alloc_unif_vars_eq]

/-- C7: a `Let` with N ≥ 2 (distinct) names allocates N fresh inference
variables, binds the i-th name to the i-th variable, appends the single
constraint `Tuple(vars) == T`, and cannot fail at binding time; a
destructuring of a non-tuple stream only fails later, in `unify`, with
`CannotUnify` (demonstrated on a two-name `Let` over a `String` stream). -/
theorem let_destructuring_defers_to_unification :
    (∀ (genv : GlobalTypeEnv) (lenv lenv1 : LocalTypeEnv) (vars : List String)
        (stream : Stream) (st : Ty),
      infer_stream genv lenv stream = some (st, lenv1) →
      2 ≤ vars.length → vars.Nodup →
      ∃ lenv2, check_statement genv lenv (.Let vars stream) = some lenv2
        ∧ lenv2.last_unification_var = lenv1.last_unification_var + vars.length
        ∧ lenv2.unification_constraints
            = lenv1.unification_constraints
              ++ [(.Tuple ((List.range vars.length).map
                    (fun j => .UnifVar (lenv1.last_unification_var + j))), st)]
        ∧ ∀ (i : Nat) (h : i < vars.length),
            List.lookup (vars.get ⟨i, h⟩) lenv2.var_types
              = some (.UnifVar (lenv1.last_unification_var + i)))
    ∧ check_statement ⟨[]⟩ ⟨[], [], 0⟩ (.Let ["a", "b"] (.Const (.Str "s")))
        = some ⟨[("b", .UnifVar 1), ("a", .UnifVar 0)],
                [(.Tuple [.UnifVar 0, .UnifVar 1], .String)], 2⟩
    ∧ unify 10 ⟨[("b", .UnifVar 1), ("a", .UnifVar 0)],
                [(.Tuple [.UnifVar 0, .UnifVar 1], .String)], 2⟩
        = some (.error (.CannotUnify (.Tuple [.UnifVar 0, .UnifVar 1]) .String)) := by
  refine ⟨?_, rfl, rfl⟩
  intro genv lenv lenv1 vars stream st hinf hlen hnd
  match vars, hlen with
  | a :: b :: rest, _ =>
    simp only [check_statement, hinf, let_fresh_vars_eq, insert_var_types_eq]
    set n := (a :: b :: rest).length with hn
    set base := lenv1.last_unification_var with hbase
    set fresh := (List.range n).map (fun j => Ty.UnifVar (base + j)) with hfresh
    have hflen : fresh.length = n := by simp [hfresh]
    have hmapsnd : ((a :: b :: rest).zip fresh).map Prod.snd = fresh :=
      List.map_snd_zip _ _ (by omega)
    have hmapfst : ((a :: b :: rest).zip fresh).map Prod.fst = a :: b :: rest :=
      List.map_fst_zip _ _ (by omega)
    refine ⟨_, rfl, rfl, ?_, ?_⟩
    · simp only [hmapsnd]
    · intro i h
      have hkeys : ((((a :: b :: rest).zip fresh).reverse).map Prod.fst).Nodup := by
        rw [List.map_reverse, hmapfst]
        exact List.nodup_reverse.mpr hnd
      have hzlen : ((a :: b :: rest).zip fresh).length = n := by
        rw [List.length_zip, hflen]
        omega
      have hiz : i < ((a :: b :: rest).zip fresh).length := by omega
      have hmem : ((a :: b :: rest).get ⟨i, h⟩, Ty.UnifVar (base + i))
          ∈ ((a :: b :: rest).zip fresh).reverse := by
        rw [List.mem_reverse]
        have hval : ((a :: b :: rest).zip fresh).get ⟨i, hiz⟩
            = ((a :: b :: rest).get ⟨i, h⟩, Ty.UnifVar (base + i)) := by
          rw [List.get_eq_getElem, List.getElem_zip]
          refine Prod.mk.injEq .. ▸ ⟨rfl, ?_⟩
          simp only [hfresh, List.getElem_map, List.getElem_range]
        rw [← hval]
        exact List.get_mem _ _ hiz
      exact lookup_append_left _ _ _ _
        (lookup_of_nodup_mem _ _ _ hkeys hmem)

theorem let_destructuring_defers_to_unification_witness :
    ∃ lenv2, check_statement ⟨[]⟩ ⟨[], [], 0⟩ (.Let ["x", "y"] (.Const (.Num 1)))
        = some lenv2
      ∧ lenv2.last_unification_var = 2
      ∧ lenv2.unification_constraints = [(.Tuple [.UnifVar 0, .UnifVar 1], .Num)]
      ∧ ∀ (i : Nat) (h : i < (["x", "y"] : List String).length),
          List.lookup ((["x", "y"] : List String).get ⟨i, h⟩) lenv2.var_types
            = some (.UnifVar i) := by
  obtain ⟨lenv2, h1, h2, h3, h4⟩ :=
    let_destructuring_defers_to_unification.1 ⟨[]⟩ ⟨[], [], 0⟩ ⟨[], [], 0⟩
      ["x", "y"] (.Const (.Num 1)) .Num rfl (by decide) (by decide)
  exact ⟨lenv2, h1, h2, by simpa using h3, fun i h => by simpa using h4 i h⟩

/-- C8: `check` starts from the empty global environment and folds the
definitions in source order; a definition that fails yields exactly that
first error, whatever the later definitions are; and `check` returns
success precisely when every definition checks successfully in sequence. -/
theorem check_stops_at_first_error :
    (∀ (fuel : Nat) (p : Program),
        check fuel p
          = (check_machines fuel ⟨[]⟩ p.machines).map (fun r => r.map (fun _ => ())))
    ∧ (∀ (fuel : Nat) (genv : GlobalTypeEnv) (m : Definition)
        (rest : List Definition) (e : TypeError),
        check_machine_def fuel genv m = some (.error e) →
        check_machines fuel genv (m :: rest) = some (.error e))
    ∧ (∀ (fuel : Nat) (p : Program),
        check fuel p = some (.ok ()) ↔ all_check fuel ⟨[]⟩ p.machines) := by
  have key : ∀ (fuel : Nat) (ms : List Definition) (genv : GlobalTypeEnv),
      (∃ g, check_machines fuel genv ms = some (.ok g)) ↔ all_check fuel genv ms := by
    intro fuel ms
    induction ms with
    | nil => intro genv; simp [check_machines, all_check]
    | cons m rest ih =>
      intro genv
      constructor
      · rintro ⟨g, hg⟩
        rcases hcm : check_machine_def fuel genv m with _ | e | genv'
        · rw [check_machines] at hg
          rw [hcm] at hg
          exact absurd hg (by simp)
        · rw [check_machines] at hg
          rw [hcm] at hg
          exact absurd hg (by simp)
        · exact ⟨genv', hcm, (ih genv').mp ⟨g, (check_machines_cons_ok _ _ _ _ _ hcm) ▸ hg⟩⟩
      · rintro ⟨genv', hcm, hrest⟩
        obtain ⟨g, hg⟩ := (ih genv').mpr hrest
        exact ⟨g, by rw [check_machines_cons_ok _ _ _ _ _ hcm]; exact hg⟩
  refine ⟨fun _ _ => rfl, fun fuel genv m rest e h => by simp [check_machines, h], ?_⟩
  intro fuel p
  rw [← key fuel p.machines ⟨[]⟩]
  unfold check
  rcases check_machines fuel (⟨[]⟩ : GlobalTypeEnv) p.machines with _ | e | g
  · simp
  · simp [Except.map]
  · simp [Except.map]

theorem check_stops_at_first_error_witness :
    check_machines 10 ⟨[]⟩ [machine_bad_gte, machine_returning_num]
      = some (.error (.CannotUnify (.Tuple [.Num, .Num]) .Num)) :=
  check_stops_at_first_error.2.1 10 ⟨[]⟩ machine_bad_gte [machine_returning_num]
    (.CannotUnify (.Tuple [.Num, .Num]) .Num) rfl

/-- C10: `new_unif_var` returns `UnifVar` of the current counter value and
strictly increments the counter; consequently a sequence of allocations
(the `(0..count)` loop embedded as `alloc_unif_vars`) yields the ascending
indices `counter, counter+1, …`, each equal to the number of prior calls
when the pass starts at zero, and pairwise distinct. -/
theorem new_unif_var_strictly_increments :
    (∀ local_env : LocalTypeEnv,
        new_unif_var local_env
          = (.UnifVar local_env.last_unification_var,
             { local_env with last_unification_var :=
                 local_env.last_unification_var + 1 }))
    ∧ (∀ (local_env : LocalTypeEnv) (i count : Nat),
        (alloc_unif_vars local_env i count).1.map (fun p => p.2)
          = (List.range count).map
              (fun j => .UnifVar (local_env.last_unification_var + j))
        ∧ (alloc_unif_vars local_env i count).2
            = { local_env with last_unification_var :=
                  local_env.last_unification_var + count })
    ∧ (∀ (local_env : LocalTypeEnv) (i count : Nat),
        ((alloc_unif_vars local_env i count).1.map (fun p => p.2)).Pairwise (· ≠ ·)) := by
  refine ⟨fun _ => rfl, fun lenv i count => ?_, fun lenv i count => ?_⟩
  · rw [alloc_unif_vars_eq]
    exact ⟨by simp [List.map_map], rfl⟩
  · rw [alloc_unif_vars_eq]
    simp only [List.map_map]
    refine List.Nodup.map ?_ (List.nodup_range count)
    intro a b hab
    simp only [Function.comp_apply, Ty.UnifVar.injEq] at hab
    omega

theorem infer_stream_env_congr (g1 g2 : GlobalTypeEnv) (henv : EnvEquiv g1 g2) :
    ∀ (lenv : LocalTypeEnv) (s : Stream),
      infer_stream g1 lenv s = infer_stream g2 lenv s := by
  have henv' : ∀ name, List.lookup name g1.machine_types = List.lookup name g2.machine_types :=
    henv
  apply infer_stream.induct g1
    (fun le st => infer_stream g1 le st = infer_stream g2 le st)
    (fun le ss => infer_streams g1 le ss = infer_streams g2 le ss)
  all_goals intros
  all_goals try rfl
  all_goals simp_all [infer_stream, infer_streams, henv']

theorem check_statement_env_congr (g1 g2 : GlobalTypeEnv) (henv : EnvEquiv g1 g2)
    (lenv : LocalTypeEnv) (st : Statement) :
    check_statement g1 lenv st = check_statement g2 lenv st := by
  cases st <;>
    simp only [check_statement, infer_stream_env_congr g1 g2 henv]

theorem check_statements_env_congr (g1 g2 : GlobalTypeEnv) (henv : EnvEquiv g1 g2) :
    ∀ (sts : List Statement) (lenv : LocalTypeEnv),
      check_statements g1 lenv sts = check_statements g2 lenv sts
  | [], _ => rfl
  | st :: rest, lenv => by
      simp only [check_statements, check_statement_env_congr g1 g2 henv]
      cases check_statement g2 lenv st with
      | none => rfl
      | some lenv' => exact check_statements_env_congr g1 g2 henv rest lenv'

theorem envequiv_insert (g1 g2 : GlobalTypeEnv) (henv : EnvEquiv g1 g2)
    (name : String) (mt : MachineType) :
    EnvEquiv ⟨(name, mt) :: g1.machine_types⟩ ⟨(name, mt) :: g2.machine_types⟩ := by
  intro k
  simp only [List.lookup]
  cases hk : k == name with
  | true => rfl
  | false => exact henv k

theorem check_machine_def_env_congr (fuel : Nat) (g1 g2 : GlobalTypeEnv)
    (henv : EnvEquiv g1 g2) (m : Definition) :
    check_result_equiv (check_machine_def fuel g1 m) (check_machine_def fuel g2 m) := by
  have hG : EnvEquiv ⟨(m.name, ⟨0, .UnifVar 0, .UnifVar 1⟩) :: g1.machine_types⟩
      ⟨(m.name, ⟨0, .UnifVar 0, .UnifVar 1⟩) :: g2.machine_types⟩ :=
    envequiv_insert g1 g2 henv m.name ⟨0, .UnifVar 0, .UnifVar 1⟩
  simp only [check_machine_def, new_unif_var, Nat.zero_add]
  rw [check_statements_env_congr _ _ hG]
  rcases check_statements ⟨(m.name, ⟨0, .UnifVar 0, .UnifVar 1⟩) :: g2.machine_types⟩
      ⟨[], [], 2⟩ m.body with _ | lenv1
  · exact trivial
  · dsimp only
    rw [infer_stream_env_congr _ _ hG]
    rcases infer_stream ⟨(m.name, ⟨0, .UnifVar 0, .UnifVar 1⟩) :: g2.machine_types⟩
        lenv1 m.result with _ | ⟨ty, lenv2⟩
    · exact trivial
    · dsimp only
      rcases unify fuel { lenv2 with unification_constraints :=
          lenv2.unification_constraints ++ [(.UnifVar 1, ty)] } with _ | (e | subst)
      · exact trivial
      · exact rfl
      · dsimp only
        rcases generalize fuel subst ⟨0, .UnifVar 0, .UnifVar 1⟩ with _ | gmt
        · exact trivial
        · exact envequiv_insert _ _ hG m.name gmt

theorem check_machines_env_congr (fuel : Nat) :
    ∀ (ms : List Definition) (g1 g2 : GlobalTypeEnv), EnvEquiv g1 g2 →
      check_result_equiv (check_machines fuel g1 ms) (check_machines fuel g2 ms)
  | [], g1, g2, henv => henv
  | m :: rest, g1, g2, henv => by
      have h := check_machine_def_env_congr fuel g1 g2 henv m
      simp only [check_machines]
      rcases h1 : check_machine_def fuel g1 m with _ | (e1 | genv1) <;>
        rcases h2 : check_machine_def fuel g2 m with _ | (e2 | genv2) <;>
          rw [h1, h2] at h <;> simp only [check_result_equiv] at h ⊢
      all_goals first
        | exact trivial
        | exact h
        | exact check_machines_env_congr fuel rest genv1 genv2 h

/-- C9: `check` is a pure function of the program (two runs with fresh
environments are literally the same computation), and its result does not
depend on the internal layout of the environment map: starting from any
two lookup-equivalent global environments, the two runs produce the same
divergence/panic outcome, the same `CannotUnify` error, and
lookup-equivalent final environments — in particular the same committed
scheme for every machine name — hence the same verdict. -/
theorem check_deterministic_up_to_env_representation :
    ∀ (fuel : Nat) (g1 g2 : GlobalTypeEnv) (ms : List Definition),
      EnvEquiv g1 g2 →
      check_result_equiv (check_machines fuel g1 ms) (check_machines fuel g2 ms)
      ∧ (check_machines fuel g1 ms).map (fun r => r.map (fun _ => ()))
          = (check_machines fuel g2 ms).map (fun r => r.map (fun _ => ())) := by
  intro fuel g1 g2 ms henv
  have h := check_machines_env_congr fuel ms g1 g2 henv
  refine ⟨h, ?_⟩
  rcases h1 : check_machines fuel g1 ms with _ | (e1 | genv1) <;>
    rcases h2 : check_machines fuel g2 ms with _ | (e2 | genv2) <;>
      rw [h1, h2] at h <;> simp only [check_result_equiv] at h <;> simp_all [Except.map]

theorem check_deterministic_up_to_env_representation_witness :
    check_result_equiv
      (check_machines 10 ⟨[("a", ⟨0, .Num, .Num⟩), ("a", ⟨0, .Bool, .Bool⟩)]⟩
        [machine_returning_num])
      (check_machines 10 ⟨[("a", ⟨0, .Num, .Num⟩)]⟩ [machine_returning_num])
    ∧ (check_machines 10 ⟨[("a", ⟨0, .Num, .Num⟩), ("a", ⟨0, .Bool, .Bool⟩)]⟩
        [machine_returning_num]).map (fun r => r.map (fun _ => ()))
        = (check_machines 10 ⟨[("a", ⟨0, .Num, .Num⟩)]⟩ [machine_returning_num]).map
            (fun r => r.map (fun _ => ())) :=
  check_deterministic_up_to_env_representation 10
    ⟨[("a", ⟨0, .Num, .Num⟩), ("a", ⟨0, .Bool, .Bool⟩)]⟩ ⟨[("a", ⟨0, .Num, .Num⟩)]⟩
    [machine_returning_num]
    (by
      intro k
      simp only [List.lookup]
      cases hk : k == "a" <;> simp)

end Bam

